import Mathlib

/-!
Verification of the BioSimSpace workshop tutorial repository.

The repository consists of tutorial notebooks that drive an external
molecular-simulation interoperability layer (BioSimSpace): a workflow node is
queried and run from the command line, a molecular system is loaded, a
simulation protocol is constructed, an external molecular-dynamics executable
is launched and polled, and the resulting trajectory is read and analysed.
The notebooks contain the call sequences; the library the calls go to is not
part of the reviewed sources, so its operations are modelled here from the
spec's descriptions of their observable behaviour, while the equilibration
node's declarations and call sequence are embedded from
`nodes/equilibration.ipynb` directly.
-/

namespace BSS

/-- Molecular file formats handled by the I/O layer; the tutorial inputs are in
AMBER format. -/
inductive FileFormat where
  | amber
  | gro87
  | pdb
  deriving DecidableEq

/-- A molecule: its residue name together with a payload index distinguishing
distinct molecules that share a residue name. -/
structure Molecule where
  resName : String
  payload : Nat
  deriving DecidableEq

/-- A molecular system as produced by reading a set of molecular files: its
molecules and the format of the files it was read from. -/
structure MolSystem where
  molecules : List Molecule
  fmt : FileFormat
  deriving DecidableEq

/-- The number of molecules in the system (`system.nMolecules()`). -/
def MolSystem.nMolecules (s : MolSystem) : Nat :=
  s.molecules.length

/-- The format of the files the system was read from (`system.fileFormat()`). -/
def MolSystem.fileFormat (s : MolSystem) : FileFormat :=
  s.fmt

/-- Modelled from the spec: `system.getMolWithResName(name)` (a library call
whose implementation is not in the reviewed sources) returns the molecule of
the system with the given residue name. -/
def MolSystem.getMolWithResName (s : MolSystem) (name : String) : Option Molecule :=
  s.molecules.find? (fun m => m.resName == name)

/-- An input file on disk: its name, the molecular format of its content, and
the molecules it defines. -/
structure InFile where
  name : String
  fmt : FileFormat
  content : List Molecule
  deriving DecidableEq

/-- An output file written by the I/O layer: the directory it is written to,
its base name and extension, the format of its content, and the molecules it
records. -/
structure OutFile where
  dir : String
  base : String
  ext : String
  fmt : FileFormat
  content : List Molecule
  deriving DecidableEq

/-- The file extensions a format is written with (AMBER systems are a
coordinate plus a topology file, as in the tutorial's `minimised.*`). -/
def formatExts : FileFormat → List String
  | .amber => ["crd", "top"]
  | .gro87 => ["gro", "top"]
  | .pdb => ["pdb"]

/-- Modelled from the spec: `BSS.IO.readMolecules(files)` (not in the reviewed
sources) parses a set of molecular input files into a system; the files must
agree on their format, which is recorded in the system, and the system's
molecules are the concatenation of the files' contents. -/
def readMolecules : List InFile → Option MolSystem
  | [] => none
  | f :: fs =>
    if fs.all (fun g => g.fmt == f.fmt) then
      some ⟨((f :: fs).map InFile.content).flatten, f.fmt⟩
    else none

/-- Modelled from the spec: `BSS.IO.saveMolecules(base, system, format)` (not
in the reviewed sources) writes the system to files with the given base name,
in the requested format, inside the given working directory, and returns the
files written. -/
def saveMolecules (workDir : String) (base : String) (sys : MolSystem)
    (fmt : FileFormat) : List OutFile :=
  (formatExts fmt).map (fun e => ⟨workDir, base, e, fmt, sys.molecules⟩)

/-- A time quantity, stored in nanoseconds (`BSS.Units.Time`). -/
structure TimeNs where
  ns : ℚ
  deriving DecidableEq

/-- A temperature, stored in kelvin (`BSS.Units.Temperature`). -/
structure TempK where
  kelvin : ℚ
  deriving DecidableEq

/-- A simulation protocol descriptor: the kind of simulation together with its
parameters (`BSS.Protocol`); the kinds are the four listed in the tutorial. -/
inductive Protocol where
  | minimisation (steps : Nat)
  | equilibration (runtime : TimeNs) (temperature_start : TempK)
      (temperature_end : TempK) (restrain_backbone : Bool)
  | production (runtime : TimeNs) (temperature : TempK)
  | custom (config : List String)
  deriving DecidableEq

/-- The trajectory file inside a process working directory: absent, in the
middle of being written by the external executable, or completely written. -/
inductive TrajFile where
  | absent
  | writing (frames : List MolSystem)
  | complete (frames : List MolSystem)
  deriving DecidableEq

/-- Modelled from the spec: a process handle (not in the reviewed sources)
wraps a spawned external executable; it records the molecular system, the
protocol descriptor it was created from, the configuration strings, the
ordered argument dictionary together with its protocol defaults, whether the
executable is running, and the state of the trajectory file in the working
directory. -/
structure Process where
  system : MolSystem
  protocol : Protocol
  config : List String
  defaultArgs : List (String × String)
  args : List (String × String)
  running : Bool
  trajFile : TrajFile
  deriving DecidableEq

/-- Overwrite the value of a key in an ordered dictionary, or append the pair
when the key is absent (the behaviour `process.setArg` shows for an
`OrderedDict`). -/
def setPair (d : List (String × String)) (k v : String) : List (String × String) :=
  if d.any (fun kv => kv.1 == k) then
    d.map (fun kv => if kv.1 == k then (k, v) else kv)
  else d ++ [(k, v)]

/-- Modelled from the spec: `process.setConfig` replaces the configuration. -/
def Process.setConfig (p : Process) (cfg : List String) : Process :=
  { p with config := cfg }

/-- Modelled from the spec: `process.addToConfig` appends to the configuration. -/
def Process.addToConfig (p : Process) (cfg : List String) : Process :=
  { p with config := p.config ++ cfg }

/-- Modelled from the spec: `process.setArg` adds an argument or overwrites the
value of an existing one. -/
def Process.setArg (p : Process) (k v : String) : Process :=
  { p with args := setPair p.args k v }

/-- Modelled from the spec: `process.setArgs` overwrites all arguments with a
new dictionary. -/
def Process.setArgs (p : Process) (d : List (String × String)) : Process :=
  { p with args := d }

/-- Modelled from the spec: `process.addArgs` appends additional arguments. -/
def Process.addArgs (p : Process) (d : List (String × String)) : Process :=
  { p with args := p.args ++ d }

/-- Modelled from the spec: `process.insertArgs` inserts an argument at a
specific index. -/
def Process.insertArgs (p : Process) (k v : String) (i : Nat) : Process :=
  { p with args := p.args.insertIdx i (k, v) }

/-- Modelled from the spec: `process.deleteArg` deletes an argument from the
dictionary. -/
def Process.deleteArg (p : Process) (k : String) : Process :=
  { p with args := p.args.filter (fun kv => kv.1 != k) }

/-- Modelled from the spec: `process.clearArgs` clears all of the arguments. -/
def Process.clearArgs (p : Process) : Process :=
  { p with args := [] }

/-- Modelled from the spec: `process.resetArgs` resets the arguments to their
default values. -/
def Process.resetArgs (p : Process) : Process :=
  { p with args := p.defaultArgs }

/-- Modelled from the spec: `process.start()` launches the external executable
in the background. -/
def Process.start (p : Process) : Process :=
  { p with running := true }

/-- Modelled from the spec: `process.kill()` stops the external executable. -/
def Process.kill (p : Process) : Process :=
  { p with running := false }

/-- A mid-write trajectory file once the external executable finishes its
write: the complete file holding the same frames. -/
def TrajFile.finish : TrajFile → TrajFile
  | .writing fs => .complete fs
  | t => t

/-- Modelled from the spec: the external executable finishing its write turns a
mid-write trajectory file into the complete file holding the same frames. -/
def Process.finishWrite (p : Process) : Process :=
  { p with trajFile := p.trajFile.finish }

/-- Modelled from the spec: `BSS.MD.run(system, protocol, autostart)` (not in
the reviewed sources) creates a process handle for the given system and
protocol; with `autostart` the executable is launched immediately. -/
def MD.run (system : MolSystem) (protocol : Protocol) (autostart : Bool) : Process :=
  ⟨system, protocol, [], [], [], autostart, .absent⟩

/-- One operation on a process handle after its creation, as demonstrated in
the tutorial (configuration and argument manipulation, starting and killing
the executable, and the executable finishing a trajectory write). -/
inductive ProcOp where
  | setConfig (cfg : List String)
  | addToConfig (cfg : List String)
  | setArg (k v : String)
  | setArgs (d : List (String × String))
  | addArgs (d : List (String × String))
  | insertArgs (k v : String) (i : Nat)
  | deleteArg (k : String)
  | clearArgs
  | resetArgs
  | start
  | kill
  | finishWrite
  deriving DecidableEq

/-- Apply one tutorial operation to a process handle. -/
def Process.applyOp (p : Process) : ProcOp → Process
  | .setConfig cfg => p.setConfig cfg
  | .addToConfig cfg => p.addToConfig cfg
  | .setArg k v => p.setArg k v
  | .setArgs d => p.setArgs d
  | .addArgs d => p.addArgs d
  | .insertArgs k v i => p.insertArgs k v i
  | .deleteArg k => p.deleteArg k
  | .clearArgs => p.clearArgs
  | .resetArgs => p.resetArgs
  | .start => p.start
  | .kill => p.kill
  | .finishWrite => p.finishWrite

/-- A trajectory: the sequence of molecular configuration frames, in the order
the external process wrote them. -/
structure Trajectory where
  frames : List MolSystem
  deriving DecidableEq

/-- The current number of frames (`traj.nFrames()`). -/
def Trajectory.nFrames (t : Trajectory) : Nat :=
  t.frames.length

/-- Python-style list indexing: a negative index counts from the end. -/
def pyIndex (n : Nat) (i : Int) : Option Nat :=
  if 0 ≤ i then (if i < (n : Int) then some i.toNat else none)
  else (if -i ≤ (n : Int) then some (n - (-i).toNat) else none)

/-- Look up each requested frame in turn; the selection fails when any index is
out of range. -/
def selectFrames (f : Int → Option MolSystem) : List Int → Option (List MolSystem)
  | [] => some []
  | i :: is =>
    match f i, selectFrames f is with
    | some a, some rest => some (a :: rest)
    | _, _ => none

/-- Modelled from the spec: `traj.getFrames()` (not in the reviewed sources)
returns all frames as a list of system objects in the order they were
produced; `traj.getFrames(indices)` returns the frames selected by the given
Python-style indices. -/
def Trajectory.getFrames (t : Trajectory) : Option (List Int) → Option (List MolSystem)
  | none => some t.frames
  | some is => selectFrames (fun i => (pyIndex t.nFrames i).bind (fun j => t.frames[j]?)) is

/-- Modelled from the spec: `process.getTrajectory()` (not in the reviewed
sources) reads the trajectory file from the process working directory; while
the external process is mid-write the read fails with an error, and the
process handle is returned unchanged in every case. -/
def Process.getTrajectory (p : Process) : Except String Trajectory × Process :=
  match p.trajFile with
  | .complete fs => (.ok ⟨fs⟩, p)
  | _ => (.error "the trajectory file is still being written", p)

/-- A value supplied for a node requirement. -/
inductive Value where
  | files (fs : List String)
  | fileVal (f : String)
  | time (t : TimeNs)
  | temperature (t : TempK)
  | boolean (b : Bool)
  | str (s : String)
  | integer (n : Int)
  deriving DecidableEq

/-- A declared node requirement (`BSS.Gateway` requirement types): its help
string and, per type, the declared unit, bounds and default value. -/
inductive Requirement where
  | fileSet (help : String)
  | file (help : String)
  | time (help : String) (unit : String) (minimum maximum default : Option TimeNs)
  | temperature (help : String) (unit : String) (minimum maximum default : Option TempK)
  | boolean (help : String) (default : Option Bool)
  | string (help : String)
  | integer (help : String) (minimum maximum default : Option Int)
  deriving DecidableEq

/-- The default value a requirement declares, when it declares one. -/
def Requirement.defaultValue : Requirement → Option Value
  | .fileSet _ => none
  | .file _ => none
  | .time _ _ _ _ d => d.map Value.time
  | .temperature _ _ _ _ d => d.map Value.temperature
  | .boolean _ d => d.map Value.boolean
  | .string _ => none
  | .integer _ _ _ d => d.map Value.integer

/-- Modelled from the spec: a requirement with no default value is required. -/
def Requirement.required (r : Requirement) : Bool :=
  r.defaultValue.isNone

/-- Modelled from the spec: whether a supplied value satisfies a declared
requirement (`BSS.Gateway` validation, not in the reviewed sources): the value
must have the declared type and lie within the declared bounds. -/
def Requirement.accepts : Requirement → Value → Bool
  | .fileSet _, .files _ => true
  | .file _, .fileVal _ => true
  | .time _ _ lo hi _, .time t =>
    (lo.all fun l => decide (l.ns ≤ t.ns)) && (hi.all fun h => decide (t.ns ≤ h.ns))
  | .temperature _ _ lo hi _, .temperature t =>
    (lo.all fun l => decide (l.kelvin ≤ t.kelvin))
      && (hi.all fun h => decide (t.kelvin ≤ h.kelvin))
  | .boolean _ _, .boolean _ => true
  | .string _, .str _ => true
  | .integer _ lo hi _, .integer n =>
    (lo.all fun l => decide (l ≤ n)) && (hi.all fun h => decide (n ≤ h))
  | _, _ => false

/-- The input requirements the equilibration node declares (the `node.addInput`
calls of `nodes/equilibration.ipynb`); 0.2 nanoseconds is the rational 1/5. -/
def equilibrationInputs : List (String × Requirement) :=
  [ ("files", .fileSet "A set of molecular input files."),
    ("runtime", .time "The run time." "nanoseconds"
      (some ⟨0⟩) (some ⟨10⟩) (some ⟨mkRat 1 5⟩)),
    ("temperature_start", .temperature "The initial temperature." "kelvin"
      (some ⟨0⟩) (some ⟨1000⟩) (some ⟨0⟩)),
    ("temperature_end", .temperature "The final temperature." "kelvin"
      (some ⟨0⟩) (some ⟨1000⟩) (some ⟨300⟩)),
    ("restrain_backbone", .boolean "Whether to restrain the backbone."
      (some false)),
    ("residue", .string "The name of the molecular residue.") ]

/-- The output requirements the equilibration node declares (the
`node.addOutput` calls of `nodes/equilibration.ipynb`). -/
def equilibrationOutputs : List (String × Requirement) :=
  [ ("equilibrated", .fileSet "The equilibrated molecular system."),
    ("rmsd", .file "The RMSD of the molecule.") ]

/-- Modelled from the spec: the input requirements the minimisation node
declares (`nodes/minimisation.py`, a file of the repository not among the
reviewed sources): an optional number of steps with default 10000, and a
required set of input files. -/
def minimisationInputs : List (String × Requirement) :=
  [ ("steps", .integer "The number of minimisation steps." none none (some 10000)),
    ("files", .fileSet "A set of molecular input files.") ]

/-- Modelled from the spec: the output requirement of the minimisation node
(`nodes/minimisation.py`, not among the reviewed sources): the minimised
molecular system, written to the working directory. -/
def minimisationOutputs : List (String × Requirement) :=
  [ ("minimised", .fileSet "The minimised molecular system.") ]

/-- Split a list of characters at every comma. -/
def splitCommaChar : List Char → List (List Char)
  | [] => [[]]
  | c :: cs =>
    if c = ',' then [] :: splitCommaChar cs
    else (c :: (splitCommaChar cs).headD []) :: (splitCommaChar cs).tail

/-- Strip spaces from both ends of a list of characters (Python's `strip`). -/
def trimChar (l : List Char) : List Char :=
  ((l.dropWhile (· == ' ')).reverse.dropWhile (· == ' ')).reverse

/-- Join words with a comma and a space between consecutive words. -/
def joinCommaSpaceChar : List (List Char) → List Char
  | [] => []
  | [n] => n
  | n :: ns => n ++ ',' :: ' ' :: joinCommaSpaceChar ns

/-- The single string value of the comma-separated form of the files flag. -/
def joinCommaSpace (names : List String) : String :=
  ⟨joinCommaSpaceChar (names.map String.data)⟩

/-- Modelled from the spec: a comma-separated flag value is split at the commas
and each piece stripped of surrounding spaces. -/
def splitCommaTrim (s : String) : List String :=
  ((splitCommaChar s.data).map trimChar).map String.mk

/-- Modelled from the spec: how the set of input file names reaches a node
script through its multi-value files flag: as one comma-separated value
(`--files="a, b"`) or as multiple values (`--files a b`; a glob such as
`--files input/*` reaches the script in this form after the shell expands
it). -/
inductive FilesArg where
  | commaForm (s : String)
  | listForm (names : List String)
  deriving DecidableEq

/-- The list of file names a files flag denotes. -/
def parseFilesArg : FilesArg → List String
  | .commaForm s => splitCommaTrim s
  | .listForm names => names

/-- Modelled from the spec: one command-line token of a minimisation node
invocation, after the shell has split words and expanded globs: a reserved
flag, a valued flag, or a positional file name. -/
inductive CliTok where
  | help
  | outFlag
  | steps (n : Nat)
  | files (fa : FilesArg)
  | positional (name : String)
  deriving DecidableEq

/-- What a command-line node invocation printed or produced. -/
inductive CliOutcome where
  | helpText (inputs outputs : List (String × Requirement))
  | outputText (outputs : List (String × Requirement))
  | missingRequired (name : String)
  | fileNotFound
  | readFailed
  | ran (written : List OutFile)
  deriving DecidableEq

/-- The files an outcome wrote. -/
def CliOutcome.written : CliOutcome → List OutFile
  | .ran fs => fs
  | _ => []

/-- The result of a command-line node invocation: what was printed or produced,
and whether the node's simulation task itself was run. -/
structure CliResult where
  outcome : CliOutcome
  ranTask : Bool
  deriving DecidableEq

/-- The files a command-line invocation wrote. -/
def CliResult.written (r : CliResult) : List OutFile :=
  r.outcome.written

/-- The value of the steps flag, or the declared default of 10000. -/
def stepsOf (argv : List CliTok) : Nat :=
  (argv.findSome? (fun a => match a with | .steps n => some n | _ => none)).getD 10000

/-- The names given positionally. -/
def positionalsOf (argv : List CliTok) : List String :=
  argv.filterMap (fun a => match a with | .positional n => some n | _ => none)

/-- Modelled from the spec: the set of input file names of an invocation comes
from the files flag when it is given, and from the positional arguments
otherwise; with neither, the required files input is missing. -/
def filesOf (argv : List CliTok) : Option (List String) :=
  match argv.findSome? (fun a => match a with | .files fa => some fa | _ => none) with
  | some fa => some (parseFilesArg fa)
  | none => match positionalsOf argv with
    | [] => none
    | ps => some ps

/-- Resolve file names against the files present on disk. -/
def resolveFiles (disk : List InFile) (names : List String) : Option (List InFile) :=
  names.mapM (fun n => disk.find? (fun f => f.name == n))

/-- Modelled from the spec: running the minimisation node script
(`nodes/minimisation.py`, not among the reviewed sources) with the given
command-line tokens: the reserved `--help` flag prints the declared
input/output specification and the reserved `--output` flag prints the
expected outputs, neither running the task; otherwise the input files are
read, the external minimiser runs for the requested number of steps, and the
minimised system is saved to the working directory in the input format. -/
def runMinimisationCli (minimiser : MolSystem → Nat → MolSystem) (workDir : String)
    (disk : List InFile) (argv : List CliTok) : CliResult :=
  if argv.contains .help then
    ⟨.helpText minimisationInputs minimisationOutputs, false⟩
  else if argv.contains .outFlag then
    ⟨.outputText minimisationOutputs, false⟩
  else
    match filesOf argv with
    | none => ⟨.missingRequired "files", false⟩
    | some names =>
      match resolveFiles disk names with
      | none => ⟨.fileNotFound, false⟩
      | some files =>
        match readMolecules files with
        | none => ⟨.readFailed, false⟩
        | some system =>
          let minimised := minimiser system (stepsOf argv)
          ⟨.ran (saveMolecules workDir "minimised" minimised system.fileFormat), true⟩

/-- Python's `str.upper` on the ASCII range: every character mapped to upper
case (`Char.toUpper` agrees with CPython on ASCII). -/
def pyUpper (s : String) : String :=
  ⟨s.data.map Char.toUpper⟩

/-- Two characters are the same up to ASCII letter case: equal, or the same
letter with one in the upper-case range `A`-`Z` and the other the
corresponding lower-case character 32 code points above. -/
def charCaseEq (c d : Char) : Prop :=
  c = d ∨ (c.toNat + 32 = d.toNat ∧ 65 ≤ c.toNat ∧ c.toNat ≤ 90)
    ∨ (d.toNat + 32 = c.toNat ∧ 65 ≤ d.toNat ∧ d.toNat ≤ 90)

instance (c d : Char) : Decidable (charCaseEq c d) := by
  unfold charCaseEq; infer_instance

/-- Two strings differ only in the case of ASCII letters: same length, and the
characters agree position by position up to letter case. -/
def differOnlyInCase (s t : String) : Prop :=
  s.data.length = t.data.length ∧ ∀ p ∈ s.data.zip t.data, charCaseEq p.1 p.2

instance (s t : String) : Decidable (differOnlyInCase s t) := by
  unfold differOnlyInCase; exact instDecidableAnd

/-- The validated inputs of the equilibration node, one field per declared
input requirement of `nodes/equilibration.ipynb`. -/
structure EqInputs where
  files : List String
  runtime : TimeNs
  temperature_start : TempK
  temperature_end : TempK
  restrain_backbone : Bool
  residue : String
  deriving DecidableEq

/-- The outputs the equilibration node produces: the files of the equilibrated
system and the indexed RMSD values written to `rmsd.txt`. -/
structure EqOutputs where
  equilibrated : List OutFile
  rmsdLines : List (Nat × ℚ)
  deriving DecidableEq

/-- The external molecular-dynamics machinery a node delegates to: the MD
engine (final system and trajectory frames of a run) and the
trajectory-analysis library's RMSD of a molecule against a reference frame.
The notebooks treat both as opaque external collaborators. -/
structure Engine where
  runMD : MolSystem → Protocol → MolSystem × List MolSystem
  rmsd : List MolSystem → Nat → Option Molecule → List ℚ

/-- The body of the equilibration node, embedded from the code cells of
`nodes/equilibration.ipynb`: read the molecules, build the equilibration
protocol from the inputs, run the MD process, save the equilibrated system in
the same format as the input, and write the RMSD of the molecule whose
residue name is the upper-cased residue input. -/
def equilibrationBody (eng : Engine) (workDir : String) (disk : List InFile)
    (inp : EqInputs) : Option EqOutputs :=
  match resolveFiles disk inp.files with
  | none => none
  | some files =>
    match readMolecules files with
    | none => none
    | some system =>
      let protocol := Protocol.equilibration inp.runtime inp.temperature_start
        inp.temperature_end inp.restrain_backbone
      let result := eng.runMD system protocol
      let equilibrated := saveMolecules workDir "equilibrated" result.1 system.fileFormat
      let molecule := system.getMolWithResName (pyUpper inp.residue)
      let rmsd := eng.rmsd result.2 0 molecule
      some ⟨equilibrated, rmsd.enum⟩

/-- The supplied input values of the equilibration node, named as declared. -/
def eqInputValues (inp : EqInputs) : List (String × Value) :=
  [ ("files", .files inp.files),
    ("runtime", .time inp.runtime),
    ("temperature_start", .temperature inp.temperature_start),
    ("temperature_end", .temperature inp.temperature_end),
    ("restrain_backbone", .boolean inp.restrain_backbone),
    ("residue", .str inp.residue) ]

/-- Modelled from the spec: validation of supplied values against declared
requirements: every declared requirement must either receive an acceptable
value or be optional and absent. -/
def validateAgainst (reqs : List (String × Requirement))
    (vals : List (String × Value)) : Bool :=
  reqs.all (fun nr =>
    match vals.find? (fun kv => kv.1 == nr.1) with
    | some kv => nr.2.accepts kv.2
    | none => !nr.2.required)

/-- Whether the equilibration node's inputs pass validation against its
declared requirements. -/
def validEqInputs (inp : EqInputs) : Bool :=
  validateAgainst equilibrationInputs (eqInputValues inp)

/-- Modelled from the spec: one parsed command-line flag of an equilibration
node invocation (`--flag=value`). -/
inductive EqCliTok where
  | filesTok (fa : FilesArg)
  | runtimeTok (t : TimeNs)
  | temperatureStartTok (t : TempK)
  | temperatureEndTok (t : TempK)
  | restrainBackboneTok (b : Bool)
  | residueTok (s : String)
  deriving DecidableEq

/-- Modelled from the spec: parsing an equilibration node command line into the
declared inputs: the required files and residue must be given, and each
optional input falls back to its declared default. -/
def parseEqInputs (argv : List EqCliTok) : Option EqInputs :=
  match argv.findSome? (fun a => match a with | .filesTok fa => some fa | _ => none),
    argv.findSome? (fun a => match a with | .residueTok s => some s | _ => none) with
  | some fa, some res =>
    some ⟨parseFilesArg fa,
      (argv.findSome? (fun a => match a with
        | .runtimeTok t => some t | _ => none)).getD ⟨mkRat 1 5⟩,
      (argv.findSome? (fun a => match a with
        | .temperatureStartTok t => some t | _ => none)).getD ⟨0⟩,
      (argv.findSome? (fun a => match a with
        | .temperatureEndTok t => some t | _ => none)).getD ⟨300⟩,
      (argv.findSome? (fun a => match a with
        | .restrainBackboneTok b => some b | _ => none)).getD false,
      res⟩
  | _, _ => none

/-- The command line that supplies exactly the given inputs to the
equilibration node script. -/
def encodeEqArgs (inp : EqInputs) : List EqCliTok :=
  [ .filesTok (.listForm inp.files),
    .runtimeTok inp.runtime,
    .temperatureStartTok inp.temperature_start,
    .temperatureEndTok inp.temperature_end,
    .restrainBackboneTok inp.restrain_backbone,
    .residueTok inp.residue ]

/-- Modelled from the spec: running the equilibration node from a shell: the
command-line flags are parsed into the declared inputs, the inputs are
validated against the declared requirements, and the node body runs. -/
def runEquilibrationShell (eng : Engine) (workDir : String) (disk : List InFile)
    (argv : List EqCliTok) : Option EqOutputs :=
  match parseEqInputs argv with
  | none => none
  | some inp =>
    if validEqInputs inp then equilibrationBody eng workDir disk inp else none

/-- Modelled from the spec: running the equilibration node interactively in a
notebook: the input values are supplied through the node's controls, the same
validation runs against the same declared requirements, and the same node
body runs. -/
def runEquilibrationNotebook (eng : Engine) (workDir : String) (disk : List InFile)
    (inp : EqInputs) : Option EqOutputs :=
  if validEqInputs inp then equilibrationBody eng workDir disk inp else none

/-- The alanine dipeptide molecule of the tutorial input files. -/
def alaMolecule : Molecule :=
  ⟨"ALA", 0⟩

/-- A water molecule of the tutorial's solvated system. -/
def watMolecule : Molecule :=
  ⟨"WAT", 1⟩

/-- The tutorial's solvated alanine dipeptide system, in AMBER format. -/
def alaSystem : MolSystem :=
  ⟨[alaMolecule, watMolecule], .amber⟩

/-- The tutorial's AMBER coordinate file. -/
def alaCrd : InFile :=
  ⟨"input/ala.crd", .amber, [alaMolecule, watMolecule]⟩

/-- The tutorial's AMBER topology file. -/
def alaTop : InFile :=
  ⟨"input/ala.top", .amber, []⟩

/-- The tutorial input directory. -/
def tutorialDisk : List InFile :=
  [alaCrd, alaTop]

/-- A concrete stand-in for the external machinery, used to instantiate the
theorems at concrete inputs: the run returns the system unchanged with a
two-frame trajectory, and the RMSD is zero per frame. -/
def testEngine : Engine :=
  ⟨fun s _ => (s, [s, s]), fun frames _ _ => frames.map (fun _ => 0)⟩

/-- Equilibration inputs within every declared bound. -/
def goodEqInputs : EqInputs :=
  ⟨["input/ala.crd", "input/ala.top"], ⟨mkRat 1 20⟩, ⟨0⟩, ⟨300⟩, true, "ala"⟩

/-- Equilibration inputs whose runtime exceeds the declared maximum. -/
def badEqInputs : EqInputs :=
  ⟨["input/ala.crd", "input/ala.top"], ⟨11⟩, ⟨0⟩, ⟨300⟩, true, "ala"⟩

/-- A first trajectory frame. -/
def frameA : MolSystem :=
  ⟨[alaMolecule, watMolecule], .amber⟩

/-- A second, distinct trajectory frame. -/
def frameB : MolSystem :=
  ⟨[alaMolecule], .amber⟩

/-- A process whose external executable is in the middle of writing the
trajectory file. -/
def writingProcess : Process :=
  ⟨alaSystem, .minimisation 1000, [], [], [], true, .writing [frameA, frameB]⟩

/-- A process whose trajectory file has been completely written. -/
def completeProcess : Process :=
  ⟨alaSystem, .minimisation 1000, [], [], [], false, .complete [frameA, frameB]⟩

theorem protocol_applyOp (p : Process) (op : ProcOp) :
    (p.applyOp op).protocol = p.protocol := by
  cases op <;> rfl

theorem protocol_foldl (p : Process) (ops : List ProcOp) :
    (ops.foldl Process.applyOp p).protocol = p.protocol := by
  induction ops generalizing p with
  | nil => rfl
  | cons op rest ih => exact (ih (p.applyOp op)).trans (protocol_applyOp p op)

/-- C5: a protocol descriptor is an immutable value: once a process is created
from a system and a protocol, no sequence of the tutorial's process
operations changes the protocol's kind or parameters. -/
theorem protocol_descriptor_immutable (sys : MolSystem) (proto : Protocol)
    (auto : Bool) (ops : List ProcOp) :
    (ops.foldl Process.applyOp (MD.run sys proto auto)).protocol = proto :=
  protocol_foldl (MD.run sys proto auto) ops

/-- C4: when `process.getTrajectory()` is called while the external process is
mid-write, the call fails with an error and leaves the process handle
unchanged; after the write completes, the identical call succeeds and returns
the trajectory holding the written frames. -/
theorem getTrajectory_transient_race (p : Process) (fs : List MolSystem)
    (h : p.trajFile = .writing fs) :
    (p.getTrajectory).2 = p ∧
    (p.getTrajectory).1 = .error "the trajectory file is still being written" ∧
    ((p.finishWrite).getTrajectory).1 = .ok ⟨fs⟩ ∧
    ((p.finishWrite).getTrajectory).2 = p.finishWrite := by
  refine ⟨?_, ?_, ?_, ?_⟩ <;>
    simp [Process.getTrajectory, Process.finishWrite, TrajFile.finish, h]

theorem getTrajectory_transient_race_witness :
    (writingProcess.getTrajectory).2 = writingProcess ∧
    (writingProcess.getTrajectory).1
      = .error "the trajectory file is still being written" ∧
    ((writingProcess.finishWrite).getTrajectory).1 = .ok ⟨[frameA, frameB]⟩ ∧
    ((writingProcess.finishWrite).getTrajectory).2 = writingProcess.finishWrite :=
  getTrajectory_transient_race writingProcess [frameA, frameB] rfl

theorem pyIndex_zero (n : Nat) (h : 0 < n) : pyIndex n 0 = some 0 := by
  unfold pyIndex
  rw [if_pos le_rfl, if_pos (by omega)]
  rfl

theorem pyIndex_neg_one (n : Nat) (h : 0 < n) : pyIndex n (-1) = some (n - 1) := by
  unfold pyIndex
  rw [if_neg (by decide), if_pos (by omega)]
  rfl

/-- C6: the trajectory reader is an accessor over the frames the external
process wrote: `getFrames()` with no argument returns the list of exactly
`nFrames()` system objects in the order the frames were produced, and
`getFrames([0, -1])` returns exactly the first and the last of those
frames. -/
theorem trajectory_reader_frames (p : Process) (fs : List MolSystem)
    (t : Trajectory) (a b : MolSystem)
    (hp : p.trajFile = .complete fs)
    (ht : (p.getTrajectory).1 = .ok t)
    (ha : t.frames.head? = some a)
    (hb : t.frames.getLast? = some b) :
    t.frames = fs ∧
    t.getFrames none = some t.frames ∧
    t.frames.length = t.nFrames ∧
    t.getFrames (some [0, -1]) = some [a, b] := by
  have hfs : t.frames = fs := by
    simp [Process.getTrajectory, hp] at ht
    rw [← ht]
  have hne : t.frames ≠ [] := by
    intro h0
    rw [h0] at ha
    cases ha
  have hlen : 0 < t.nFrames := List.length_pos.mpr hne
  have h0 : t.frames[0]? = some a := by
    rw [← List.head?_eq_getElem?]
    exact ha
  have h1 : t.frames[t.nFrames - 1]? = some b := by
    rw [show t.nFrames = t.frames.length from rfl, ← List.getLast?_eq_getElem?]
    exact hb
  refine ⟨hfs, rfl, rfl, ?_⟩
  simp [Trajectory.getFrames, selectFrames, pyIndex_zero _ hlen,
    pyIndex_neg_one _ hlen, h0, h1]

theorem trajectory_reader_frames_witness :
    (⟨[frameA, frameB]⟩ : Trajectory).frames = [frameA, frameB] ∧
    (⟨[frameA, frameB]⟩ : Trajectory).getFrames none = some [frameA, frameB] ∧
    ([frameA, frameB] : List MolSystem).length
      = (⟨[frameA, frameB]⟩ : Trajectory).nFrames ∧
    (⟨[frameA, frameB]⟩ : Trajectory).getFrames (some [0, -1])
      = some [frameA, frameB] :=
  trajectory_reader_frames completeProcess [frameA, frameB] ⟨[frameA, frameB]⟩
    frameA frameB rfl rfl rfl rfl

/-- C1: invoking a node script with the reserved `--help` flag prints the
node's declared input/output specification and invoking it with the reserved
`--output` flag prints its expected outputs; neither invocation runs the
simulation task itself. -/
theorem reserved_flags_show_spec (m : MolSystem → Nat → MolSystem) (wd : String)
    (disk : List InFile) (argv : List CliTok) :
    (CliTok.help ∈ argv →
      runMinimisationCli m wd disk argv
        = ⟨.helpText minimisationInputs minimisationOutputs, false⟩) ∧
    (CliTok.help ∉ argv → CliTok.outFlag ∈ argv →
      runMinimisationCli m wd disk argv
        = ⟨.outputText minimisationOutputs, false⟩) := by
  constructor
  · intro h
    simp [runMinimisationCli, h]
  · intro h1 h2
    simp [runMinimisationCli, h1, h2]

theorem splitCommaChar_cons (c : Char) (cs : List Char) :
    splitCommaChar (c :: cs)
      = if c = ',' then [] :: splitCommaChar cs
        else (c :: (splitCommaChar cs).headD []) :: (splitCommaChar cs).tail := rfl

theorem splitCommaChar_ne_nil (l : List Char) : splitCommaChar l ≠ [] := by
  cases l with
  | nil => simp [splitCommaChar]
  | cons c cs =>
    rw [splitCommaChar_cons]
    split <;> simp

theorem splitCommaChar_no_comma (l : List Char) (h : ∀ c ∈ l, c ≠ ',') :
    splitCommaChar l = [l] := by
  induction l with
  | nil => rfl
  | cons c cs ih =>
    have hc : c ≠ ',' := h c (List.mem_cons_self _ _)
    have ih' := ih (fun x hx => h x (List.mem_cons_of_mem _ hx))
    rw [splitCommaChar_cons, if_neg hc, ih']
    rfl

theorem splitCommaChar_append (l rest : List Char) (h : ∀ c ∈ l, c ≠ ',') :
    splitCommaChar (l ++ ',' :: rest) = l :: splitCommaChar rest := by
  induction l with
  | nil =>
    show splitCommaChar (',' :: rest) = [] :: splitCommaChar rest
    rw [splitCommaChar_cons, if_pos rfl]
  | cons c cs ih =>
    have hc : c ≠ ',' := h c (List.mem_cons_self _ _)
    have ih' := ih (fun x hx => h x (List.mem_cons_of_mem _ hx))
    show splitCommaChar (c :: (cs ++ ',' :: rest)) = (c :: cs) :: splitCommaChar rest
    rw [splitCommaChar_cons, if_neg hc, ih']
    rfl

theorem dropWhile_eq_self_of_none (p : Char → Bool) (l : List Char)
    (h : ∀ c ∈ l, p c = false) : l.dropWhile p = l := by
  cases l with
  | nil => rfl
  | cons c cs =>
    rw [List.dropWhile_cons, h c (List.mem_cons_self _ _)]
    simp

theorem trimChar_no_space (l : List Char) (h : ∀ c ∈ l, c ≠ ' ') :
    trimChar l = l := by
  have h1 : ∀ c ∈ l, (c == ' ') = false := fun c hc => by
    simpa using h c hc
  have h2 : ∀ c ∈ l.reverse, (c == ' ') = false := fun c hc =>
    h1 c (List.mem_reverse.mp hc)
  unfold trimChar
  rw [dropWhile_eq_self_of_none _ _ h1, dropWhile_eq_self_of_none _ _ h2,
    List.reverse_reverse]

theorem trimChar_cons_space (l : List Char) : trimChar (' ' :: l) = trimChar l := by
  unfold trimChar
  rw [List.dropWhile_cons]
  simp

theorem splitJoin_names (ns : List (List Char)) :
    ns ≠ [] → (∀ n ∈ ns, ∀ c ∈ n, c ≠ ',' ∧ c ≠ ' ') →
    (splitCommaChar (joinCommaSpaceChar ns)).map trimChar = ns := by
  induction ns with
  | nil => intro hne _; cases hne rfl
  | cons n rest ih =>
    intro _ hfree
    have h1 : ∀ c ∈ n, c ≠ ',' := fun c hc => (hfree n (by simp) c hc).1
    have h2 : ∀ c ∈ n, c ≠ ' ' := fun c hc => (hfree n (by simp) c hc).2
    cases rest with
    | nil =>
      show (splitCommaChar (joinCommaSpaceChar [n])).map trimChar = [n]
      rw [show joinCommaSpaceChar [n] = n from rfl, splitCommaChar_no_comma n h1]
      simp [trimChar_no_space n h2]
    | cons m rest2 =>
      have hJ : joinCommaSpaceChar (n :: m :: rest2)
          = n ++ ',' :: ' ' :: joinCommaSpaceChar (m :: rest2) := rfl
      rw [hJ, splitCommaChar_append n _ h1]
      have ihr := ih (by simp) (fun x hx => hfree x (List.mem_cons_of_mem _ hx))
      have hsplit : (splitCommaChar
            (' ' :: joinCommaSpaceChar (m :: rest2))).map trimChar
          = (splitCommaChar (joinCommaSpaceChar (m :: rest2))).map trimChar := by
        obtain ⟨h0, t0, he⟩ := List.exists_cons_of_ne_nil
          (splitCommaChar_ne_nil (joinCommaSpaceChar (m :: rest2)))
        have hstep : splitCommaChar (' ' :: joinCommaSpaceChar (m :: rest2))
            = (' ' :: h0) :: t0 := by
          rw [splitCommaChar_cons, if_neg (by decide), he]
          rfl
        rw [hstep, he]
        simp [trimChar_cons_space]
      rw [List.map_cons, hsplit, ihr, trimChar_no_space n h2]

theorem splitCommaTrim_joinCommaSpace (names : List String) (hne : names ≠ [])
    (hfree : ∀ nm ∈ names, ∀ c ∈ nm.data, c ≠ ',' ∧ c ≠ ' ') :
    splitCommaTrim (joinCommaSpace names) = names := by
  unfold splitCommaTrim joinCommaSpace
  have hne' : names.map String.data ≠ [] := by simpa using hne
  have hfree' : ∀ n ∈ names.map String.data, ∀ c ∈ n, c ≠ ',' ∧ c ≠ ' ' := by
    intro n hn
    obtain ⟨s, hs, rfl⟩ := List.mem_map.mp hn
    exact hfree s hs
  rw [show (⟨joinCommaSpaceChar (names.map String.data)⟩ : String).data
      = joinCommaSpaceChar (names.map String.data) from rfl]
  rw [splitJoin_names _ hne' hfree', List.map_map]
  have hid : String.mk ∘ String.data = id := funext fun s => rfl
  rw [hid, List.map_id]

theorem contains_map_positional (names : List String) (tok : CliTok)
    (h : ∀ n, tok ≠ CliTok.positional n) : tok ∉ names.map CliTok.positional := by
  intro hmem
  obtain ⟨n, _, he⟩ := List.mem_map.mp hmem
  exact h n he.symm

theorem findSome_files_map_positional (names : List String) :
    (names.map CliTok.positional).findSome?
      (fun a => match a with | CliTok.files fa => some fa | _ => none) = none := by
  induction names with
  | nil => rfl
  | cons n rest ih =>
    rw [List.map_cons, List.findSome?_cons]
    exact ih

theorem positionalsOf_map (names : List String) :
    positionalsOf (names.map CliTok.positional) = names := by
  induction names with
  | nil => rfl
  | cons n rest ih =>
    show positionalsOf (CliTok.positional n :: rest.map CliTok.positional)
      = n :: rest
    unfold positionalsOf
    rw [List.filterMap_cons]
    show n :: positionalsOf (rest.map CliTok.positional) = n :: rest
    rw [ih]

/-- C2: the set of molecular input files can be passed positionally or via the
multi-value files flag; for the minimisation node the comma-separated,
space-separated and shell-expanded glob forms of the files flag all denote
the same file list and give the same invocation result; and every output file
an invocation produces is written to the working directory. -/
theorem files_forms_equivalent (m : MolSystem → Nat → MolSystem) (wd : String)
    (disk : List InFile) (names : List String) (k : Nat)
    (hne : names ≠ [])
    (hfree : ∀ nm ∈ names, ∀ c ∈ nm.data, c ≠ ',' ∧ c ≠ ' ') :
    parseFilesArg (.commaForm (joinCommaSpace names)) = names ∧
    parseFilesArg (.listForm names) = names ∧
    runMinimisationCli m wd disk
        [.steps k, .files (.commaForm (joinCommaSpace names))]
      = runMinimisationCli m wd disk [.steps k, .files (.listForm names)] ∧
    runMinimisationCli m wd disk (.steps k :: names.map CliTok.positional)
      = runMinimisationCli m wd disk [.steps k, .files (.listForm names)] ∧
    ∀ argv : List CliTok, ∀ out ∈ (runMinimisationCli m wd disk argv).written,
      out.dir = wd := by
  obtain ⟨n0, rest0, rfl⟩ := List.exists_cons_of_ne_nil hne
  have hparse : parseFilesArg (.commaForm (joinCommaSpace (n0 :: rest0)))
      = n0 :: rest0 := splitCommaTrim_joinCommaSpace _ hne hfree
  have hcommon : ∀ argv : List CliTok, CliTok.help ∉ argv → CliTok.outFlag ∉ argv →
      filesOf argv = some (n0 :: rest0) → stepsOf argv = k →
      runMinimisationCli m wd disk argv =
        (match resolveFiles disk (n0 :: rest0) with
          | none => ⟨.fileNotFound, false⟩
          | some files =>
            match readMolecules files with
            | none => ⟨.readFailed, false⟩
            | some system =>
              ⟨.ran (saveMolecules wd "minimised" (m system k) system.fileFormat),
                true⟩) := by
    intro argv hh ho hf hk
    unfold runMinimisationCli
    rw [if_neg (by simpa using hh), if_neg (by simpa using ho)]
    simp only [hf, hk]
  have h3a : filesOf [.steps k, .files (.commaForm (joinCommaSpace (n0 :: rest0)))]
      = some (n0 :: rest0) := by
    show some (parseFilesArg (.commaForm (joinCommaSpace (n0 :: rest0))))
      = some (n0 :: rest0)
    rw [hparse]
  have h3b : filesOf [.steps k, .files (.listForm (n0 :: rest0))]
      = some (n0 :: rest0) := rfl
  have hpos : positionalsOf (.steps k :: (n0 :: rest0).map CliTok.positional)
      = n0 :: rest0 := by
    show positionalsOf ((n0 :: rest0).map CliTok.positional) = n0 :: rest0
    exact positionalsOf_map _
  have h3c : filesOf (.steps k :: (n0 :: rest0).map CliTok.positional)
      = some (n0 :: rest0) := by
    unfold filesOf
    rw [List.findSome?_cons, findSome_files_map_positional]
    show (match positionalsOf (.steps k :: (n0 :: rest0).map CliTok.positional) with
      | [] => none
      | ps => some ps) = some (n0 :: rest0)
    rw [hpos]
  refine ⟨hparse, rfl, ?_, ?_, ?_⟩
  · rw [hcommon _ (by simp) (by simp) h3a rfl, hcommon _ (by simp) (by simp) h3b rfl]
  · rw [hcommon _ ?_ ?_ h3c rfl, hcommon _ (by simp) (by simp) h3b rfl]
    · intro hmem
      rcases List.mem_cons.mp hmem with h | h
      · cases h
      · obtain ⟨x, _, hx⟩ := List.mem_map.mp h
        cases hx
    · intro hmem
      rcases List.mem_cons.mp hmem with h | h
      · cases h
      · obtain ⟨x, _, hx⟩ := List.mem_map.mp h
        cases hx
  · intro argv out hmem
    by_cases hh : CliTok.help ∈ argv
    · simp [runMinimisationCli, hh, CliResult.written, CliOutcome.written] at hmem
    · by_cases ho : CliTok.outFlag ∈ argv
      · simp [runMinimisationCli, hh, ho, CliResult.written,
          CliOutcome.written] at hmem
      · cases hf : filesOf argv with
        | none =>
          simp [runMinimisationCli, hh, ho, hf, CliResult.written,
            CliOutcome.written] at hmem
        | some ns =>
          cases hr : resolveFiles disk ns with
          | none =>
            simp [runMinimisationCli, hh, ho, hf, hr, CliResult.written,
              CliOutcome.written] at hmem
          | some files =>
            cases hread : readMolecules files with
            | none =>
              simp [runMinimisationCli, hh, ho, hf, hr, hread, CliResult.written,
                CliOutcome.written] at hmem
            | some sys =>
              simp [runMinimisationCli, hh, ho, hf, hr, hread, CliResult.written,
                CliOutcome.written, saveMolecules] at hmem
              obtain ⟨e, _, heq⟩ := hmem
              subst heq
              rfl

theorem files_forms_equivalent_witness :
    parseFilesArg (.commaForm (joinCommaSpace ["input/ala.crd", "input/ala.top"]))
      = ["input/ala.crd", "input/ala.top"] ∧
    runMinimisationCli (fun s _ => s) "work" tutorialDisk
        [.steps 1000, .files (.commaForm
          (joinCommaSpace ["input/ala.crd", "input/ala.top"]))]
      = runMinimisationCli (fun s _ => s) "work" tutorialDisk
          [.steps 1000, .files (.listForm ["input/ala.crd", "input/ala.top"])] ∧
    (⟨"work", "minimised", "crd", .amber, [alaMolecule, watMolecule]⟩
        : OutFile).dir = "work" :=
  ⟨(files_forms_equivalent (fun s _ => s) "work" tutorialDisk
      ["input/ala.crd", "input/ala.top"] 1000 (by decide) (by decide)).1,
   (files_forms_equivalent (fun s _ => s) "work" tutorialDisk
      ["input/ala.crd", "input/ala.top"] 1000 (by decide) (by decide)).2.2.1,
   (files_forms_equivalent (fun s _ => s) "work" tutorialDisk
      ["input/ala.crd", "input/ala.top"] 1000 (by decide) (by decide)).2.2.2.2
      [CliTok.steps 1000, CliTok.files (.listForm ["input/ala.crd", "input/ala.top"])]
      ⟨"work", "minimised", "crd", .amber, [alaMolecule, watMolecule]⟩ (by decide)⟩

theorem reserved_flags_show_spec_witness :
    runMinimisationCli (fun s _ => s) "work" tutorialDisk [.help]
      = ⟨.helpText minimisationInputs minimisationOutputs, false⟩ ∧
    runMinimisationCli (fun s _ => s) "work" tutorialDisk [.outFlag]
      = ⟨.outputText minimisationOutputs, false⟩ :=
  ⟨(reserved_flags_show_spec (fun s _ => s) "work" tutorialDisk [.help]).1
      (by decide),
   (reserved_flags_show_spec (fun s _ => s) "work" tutorialDisk [.outFlag]).2
      (by decide) (by decide)⟩

/-- C3: a workflow node declares a named, typed, validated set of inputs and
outputs, and running it from a shell on any command line that supplies given
inputs produces the same outputs as running it interactively in a notebook on
those same inputs: the two run modes are equivalent. -/
theorem shell_notebook_equivalent (eng : Engine) (wd : String) (disk : List InFile)
    (argv : List EqCliTok) (inp : EqInputs)
    (hp : parseEqInputs argv = some inp) :
    runEquilibrationShell eng wd disk argv
      = runEquilibrationNotebook eng wd disk inp := by
  unfold runEquilibrationShell
  rw [hp]
  rfl

theorem shell_notebook_equivalent_witness :
    runEquilibrationShell testEngine "work" tutorialDisk (encodeEqArgs goodEqInputs)
      = runEquilibrationNotebook testEngine "work" tutorialDisk goodEqInputs :=
  shell_notebook_equivalent testEngine "work" tutorialDisk
    (encodeEqArgs goodEqInputs) goodEqInputs rfl

/-- C7: the output system is saved in the same format as the input system: for
every format the input files read by `readMolecules` are in, the files
written by `saveMolecules` using `system.fileFormat()` are in that same
format. -/
theorem save_format_matches_input (files : List InFile) (fmt : FileFormat)
    (sys sys2 : MolSystem) (wd base : String)
    (hf : ∀ f ∈ files, f.fmt = fmt)
    (hr : readMolecules files = some sys) :
    sys.fileFormat = fmt ∧
    saveMolecules wd base sys2 sys.fileFormat ≠ [] ∧
    ∀ out ∈ saveMolecules wd base sys2 sys.fileFormat, out.fmt = fmt := by
  have hfmt : sys.fileFormat = fmt := by
    cases files with
    | nil => simp [readMolecules] at hr
    | cons f fs =>
      simp [readMolecules] at hr
      rw [← hr.2]
      exact hf f (List.mem_cons_self _ _)
  refine ⟨hfmt, ?_, ?_⟩
  · rw [hfmt]
    cases fmt <;> simp [saveMolecules, formatExts]
  · intro out hmem
    rw [hfmt] at hmem
    simp [saveMolecules] at hmem
    obtain ⟨e, _, heq⟩ := hmem
    subst heq
    rfl

theorem save_format_matches_input_witness :
    alaSystem.fileFormat = .amber ∧
    (⟨"work", "equilibrated", "crd", .amber, []⟩ : OutFile).fmt = .amber :=
  ⟨(save_format_matches_input tutorialDisk .amber alaSystem ⟨[], .amber⟩
      "work" "equilibrated" (by decide) (by decide)).1,
   (save_format_matches_input tutorialDisk .amber alaSystem ⟨[], .amber⟩
      "work" "equilibrated" (by decide) (by decide)).2.2
      ⟨"work", "equilibrated", "crd", .amber, []⟩ (by decide)⟩

/-- C8: the equilibration node declares bounded, defaulted inputs: runtime in
0 to 10 nanoseconds with default 0.2 nanoseconds, the start and end
temperatures each in 0 to 1000 kelvin with defaults 0 kelvin and 300 kelvin,
restrain_backbone defaulting to false, and files and residue required with no
default; an input value outside its declared range fails validation and the
node is not run on it. -/
theorem equilibration_declared_bounds :
    equilibrationInputs.lookup "runtime"
      = some (.time "The run time." "nanoseconds"
          (some ⟨0⟩) (some ⟨10⟩) (some ⟨mkRat 1 5⟩)) ∧
    equilibrationInputs.lookup "temperature_start"
      = some (.temperature "The initial temperature." "kelvin"
          (some ⟨0⟩) (some ⟨1000⟩) (some ⟨0⟩)) ∧
    equilibrationInputs.lookup "temperature_end"
      = some (.temperature "The final temperature." "kelvin"
          (some ⟨0⟩) (some ⟨1000⟩) (some ⟨300⟩)) ∧
    equilibrationInputs.lookup "restrain_backbone"
      = some (.boolean "Whether to restrain the backbone." (some false)) ∧
    (equilibrationInputs.lookup "files").map Requirement.required = some true ∧
    (equilibrationInputs.lookup "residue").map Requirement.required = some true ∧
    (∀ inp : EqInputs, ¬(0 ≤ inp.runtime.ns ∧ inp.runtime.ns ≤ 10) →
      validEqInputs inp = false) ∧
    (∀ inp : EqInputs,
      ¬(0 ≤ inp.temperature_start.kelvin ∧ inp.temperature_start.kelvin ≤ 1000) →
      validEqInputs inp = false) ∧
    (∀ inp : EqInputs,
      ¬(0 ≤ inp.temperature_end.kelvin ∧ inp.temperature_end.kelvin ≤ 1000) →
      validEqInputs inp = false) ∧
    (∀ (eng : Engine) (wd : String) (disk : List InFile) (inp : EqInputs),
      validEqInputs inp = false → runEquilibrationNotebook eng wd disk inp = none) := by
  refine ⟨by decide, by decide, by decide, by decide, by decide, by decide,
    ?_, ?_, ?_, ?_⟩
  · intro inp h
    have hfalse : (decide ((0:ℚ) ≤ inp.runtime.ns)
        && decide (inp.runtime.ns ≤ 10)) = false := by
      rcases not_and_or.mp h with h1 | h1 <;> simp [decide_eq_false h1]
    simp [validEqInputs, validateAgainst, eqInputValues, equilibrationInputs,
      Requirement.accepts, Option.all, hfalse]
  · intro inp h
    have hfalse : (decide ((0:ℚ) ≤ inp.temperature_start.kelvin)
        && decide (inp.temperature_start.kelvin ≤ 1000)) = false := by
      rcases not_and_or.mp h with h1 | h1 <;> simp [decide_eq_false h1]
    simp [validEqInputs, validateAgainst, eqInputValues, equilibrationInputs,
      Requirement.accepts, Option.all, hfalse]
  · intro inp h
    have hfalse : (decide ((0:ℚ) ≤ inp.temperature_end.kelvin)
        && decide (inp.temperature_end.kelvin ≤ 1000)) = false := by
      rcases not_and_or.mp h with h1 | h1 <;> simp [decide_eq_false h1]
    simp [validEqInputs, validateAgainst, eqInputValues, equilibrationInputs,
      Requirement.accepts, Option.all, hfalse]
  · intro eng wd disk inp h
    simp [runEquilibrationNotebook, h]

theorem equilibration_declared_bounds_witness :
    validEqInputs badEqInputs = false ∧
    runEquilibrationNotebook testEngine "work" tutorialDisk badEqInputs = none := by
  have h1 := equilibration_declared_bounds.2.2.2.2.2.2.1 badEqInputs (by decide)
  have h2 := equilibration_declared_bounds.2.2.2.2.2.2.2.2.2 testEngine "work"
    tutorialDisk badEqInputs
  exact ⟨h1, h2 h1⟩

theorem charCaseEq_toUpper (c d : Char) (h : charCaseEq c d) :
    Char.toUpper c = Char.toUpper d := by
  rcases h with rfl | ⟨h1, h2, h3⟩ | ⟨h1, h2, h3⟩
  · rfl
  · show Char.toUpper c = Char.toUpper d
    unfold Char.toUpper
    rw [if_neg (by omega), if_pos (by omega),
      show d.toNat - 32 = c.toNat by omega, Char.ofNat_toNat]
  · show Char.toUpper c = Char.toUpper d
    unfold Char.toUpper
    rw [if_pos (by omega), if_neg (by omega),
      show c.toNat - 32 = d.toNat by omega, Char.ofNat_toNat]

theorem mapToUpper_eq (l₁ : List Char) :
    ∀ l₂ : List Char, l₁.length = l₂.length →
    (∀ p ∈ l₁.zip l₂, charCaseEq p.1 p.2) →
    l₁.map Char.toUpper = l₂.map Char.toUpper := by
  induction l₁ with
  | nil =>
    intro l₂ hlen _
    cases l₂ with
    | nil => rfl
    | cons d ds => simp at hlen
  | cons c cs ih =>
    intro l₂ hlen h
    cases l₂ with
    | nil => simp at hlen
    | cons d ds =>
      simp only [List.map_cons]
      rw [charCaseEq_toUpper c d (h (c, d) (by simp [List.zip_cons_cons])),
        ih ds (by simpa using hlen)
          (fun p hp => h p (by simp [List.zip_cons_cons, hp]))]

theorem pyUpper_eq_of_differOnlyInCase (s t : String) (h : differOnlyInCase s t) :
    pyUpper s = pyUpper t := by
  obtain ⟨hlen, hall⟩ := h
  exact congrArg String.mk (mapToUpper_eq s.data t.data hlen hall)

theorem equilibrationBody_congr (eng : Engine) (wd : String) (disk : List InFile)
    (inp1 inp2 : EqInputs) (hf : inp1.files = inp2.files)
    (hr : inp1.runtime = inp2.runtime)
    (hts : inp1.temperature_start = inp2.temperature_start)
    (hte : inp1.temperature_end = inp2.temperature_end)
    (hrb : inp1.restrain_backbone = inp2.restrain_backbone)
    (hres : pyUpper inp1.residue = pyUpper inp2.residue) :
    equilibrationBody eng wd disk inp1 = equilibrationBody eng wd disk inp2 := by
  cases inp1
  cases inp2
  simp only at hf hr hts hte hrb hres
  subst hf
  subst hr
  subst hts
  subst hte
  subst hrb
  simp only [equilibrationBody]
  rw [hres]

/-- C9: the equilibration node's residue input is case-insensitive: the
residue string is upper-cased before the molecule lookup, so residue strings
that differ only in ASCII letter case select the same molecule and give the
node body the same result. -/
theorem residue_input_case_insensitive (eng : Engine) (wd : String)
    (disk : List InFile) (inp : EqInputs) (sys : MolSystem) (s t : String)
    (h : differOnlyInCase s t) :
    pyUpper s = pyUpper t ∧
    sys.getMolWithResName (pyUpper s) = sys.getMolWithResName (pyUpper t) ∧
    equilibrationBody eng wd disk { inp with residue := s }
      = equilibrationBody eng wd disk { inp with residue := t } := by
  have hu := pyUpper_eq_of_differOnlyInCase s t h
  exact ⟨hu, by rw [hu],
    equilibrationBody_congr eng wd disk _ _ rfl rfl rfl rfl rfl hu⟩

theorem residue_input_case_insensitive_witness :
    pyUpper "ala" = pyUpper "aLa" ∧
    alaSystem.getMolWithResName (pyUpper "ala")
      = alaSystem.getMolWithResName (pyUpper "aLa") ∧
    equilibrationBody testEngine "work" tutorialDisk
        { goodEqInputs with residue := "ala" }
      = equilibrationBody testEngine "work" tutorialDisk
          { goodEqInputs with residue := "aLa" } :=
  residue_input_case_insensitive testEngine "work" tutorialDisk goodEqInputs
    alaSystem "ala" "aLa" (by decide)

end BSS
